import Mathlib

/-!
# Verification of `flopy/mf6/data/mfdatautil.py`

Shallow embedding of the utility module `mfdatautil.py` and proofs about it.
Python values that matter to the claims are modelled as follows:

* nested value trees (`None` / scalars / arbitrarily nested lists) become the
  inductive type `PyTree`;
* Python exceptions become `Except PyExc _` results; code that cannot raise is
  written as a total function;
* machine integers are `Int`/`Nat`; the floating point values compared by
  `array_comp` are modelled as exact rationals (`ℚ`), which preserves the
  comparison logic of the source;
* Python tuples that get unpacked by `for`-loops are modelled as heterogeneous
  lists (`List PyObj`) so that the arity of an unpacking is part of the model.
-/

namespace MfDataUtil

/-- Python exception kinds relevant to this module. -/
inductive PyExc where
  | valueError
  | typeError
  | indexError
  | mfDataException (msg : String)
deriving DecidableEq, Repr

/-- A Python nested value tree: `None`, a scalar (int or string), or a list of
trees.  This is the "Nested Value Tree" data model of the module (ragged
nesting, no fixed depth).  `numpy` arrays are not part of the claims'
"nested Python lists" domain and are not modelled. -/
inductive PyTree where
  | none
  | int (n : Int)
  | str (s : String)
  | list (items : List PyTree)

/-- A component of a Python tuple yielded by `ArrayUtil.next_item`:
the value itself, a bool, or an int. -/
inductive PyObj where
  | tree (t : PyTree)
  | bool (b : Bool)
  | int (i : Int)

/-- `True` iff the Python value is a `list` (`isinstance(x, list)`). -/
def PyTree.isList : PyTree → Bool
  | .list _ => true
  | _ => false

mutual

/-- `ArrayUtil.next_item(current_list, new_list, nesting_change, end_of_list)`:
generator over a nested list; each yield is the 4-tuple
`(<next item>, <end of list>, <entering new list>, <change in nesting level>)`,
modelled as a `List PyObj` of length 4 (the tuple's components in order). -/
def next_item (current_list : PyTree) (new_list : Bool) (nesting_change : Int)
    (end_of_list : Bool) : List (List PyObj) :=
  match current_list with
  | .list items => nextItemLoop items 1 items.length nesting_change
  | t => [[.tree t, .bool end_of_list, .bool new_list, .int nesting_change]]

/-- The `for item in current_list` loop body of `next_item`:
`list_size` starts at 1 and `nesting_change` is mutated inside the loop
(reset to 0 after a scalar yield, set to `-(nesting_change + 1)` after
returning from a recursive descent). -/
def nextItemLoop (items : List PyTree) (list_size total : Nat)
    (nesting_change : Int) : List (List PyObj) :=
  match items with
  | [] => []
  | .list sub :: rest =>
      next_item (.list sub) (list_size == 1) (nesting_change + 1)
          (list_size == total)
        ++ nextItemLoop rest (list_size + 1) total (-(nesting_change + 1))
  | t :: rest =>
      [.tree t, .bool (list_size == total), .bool (list_size == 1),
        .int nesting_change]
        :: nextItemLoop rest (list_size + 1) total 0

end

/-- Python tuple unpacking `a, b = r` for a tuple `r`: succeeds only when the
tuple has exactly two components, otherwise raises `ValueError`
("too many values to unpack"). -/
def unpack2 (r : List PyObj) : Except PyExc (PyObj × PyObj) :=
  match r with
  | [a, b] => .ok (a, b)
  | _ => .error .valueError

/-- The counting loop of `multi_dim_list_size`:
`for item, last_item in ArrayUtil.next_item(current_list): item_num += 1`.
Each iteration unpacks the yielded tuple into two names. -/
def countItems (records : List (List PyObj)) (item_num : Nat) :
    Except PyExc Nat :=
  match records with
  | [] => .ok item_num
  | r :: rest =>
      match unpack2 r with
      | .ok _ => countItems rest (item_num + 1)
      | .error e => .error e

/-- `ArrayUtil.multi_dim_list_size(current_list)`: 0 for `None`, 1 for a
non-list scalar, and for a list it counts the yields of `next_item` by
iterating `for item, last_item in ArrayUtil.next_item(current_list)`. -/
def multi_dim_list_size (current_list : PyTree) : Except PyExc Nat :=
  match current_list with
  | .none => .ok 0
  | .list items => countItems (next_item (.list items) true 0 true) 0
  | _ => .ok 1

mutual

/-- The number of scalar leaves of a tree, by an independent direct recursive
count (the spec's reference count).  Note that `None` *inside* a list is an
ordinary scalar leaf; only a top-level `None` counts as 0, which is part of
`multi_dim_list_size` itself. -/
def leafCount : PyTree → Nat
  | .list items => leafCountList items
  | _ => 1

/-- Leaf count of a list of trees. -/
def leafCountList : List PyTree → Nat
  | [] => 0
  | t :: rest => leafCount t + leafCountList rest

end

/-- Python `x != 0` where `x` is a list: always `True` (a list never equals an
int), and the result is a `bool` object. -/
def listNeZero (_items : List PyTree) : PyObj := .bool true

/-- Python `len(obj)`: defined for lists; raises `TypeError` for a `bool` or
other non-sized object ("object of type 'bool' has no len()"). -/
def pyLen (obj : PyObj) : Except PyExc Nat :=
  match obj with
  | .tree (.list items) => .ok items.length
  | _ => .error .typeError

/-- `ArrayUtil.has_one_item(current_list)` for nested Python lists.
Source logic:
```
if not isinstance(current_list, list): return True
if len(current_list) != 1: return False
if isinstance(current_list[0], list) and len(current_list[0] != 0):
    return False
return True
```
(the `or isinstance(current_list, np.ndarray)` disjunct is `False` for the
Python lists modelled here).  Note the source computes
`len(current_list[0] != 0)` — `len` applied to the *comparison result*. -/
def has_one_item (current_list : PyTree) : Except PyExc Bool :=
  match current_list with
  | .list items =>
      if items.length != 1 then .ok false
      else
        match items with
        | [child] =>
            if child.isList then
              -- `current_list[0] != 0` evaluates to the bool `True`;
              -- `len` of a bool raises TypeError
              match pyLen (listNeZero (match child with
                  | .list sub => sub
                  | _ => [])) with
              | .error e => .error e
              | .ok l => if l != 0 then .ok false else .ok true
            else .ok true
        | _ => .ok false
  | _ => .ok true

/-! ## Numeric token classifiers (`DatumUtil.is_int` / `DatumUtil.is_float`)

The source wraps the Python built-ins `int(str)` / `float(str)` in
`try/except` blocks that catch `TypeError` and `ValueError`.  The built-ins'
behaviour on strings is part of the language, embedded here: both strip
surrounding whitespace and accept an optional sign; `int` then requires a
non-empty digit run, `float` accepts a decimal mantissa with optional
fraction and exponent, or the words inf/infinity/nan (case-insensitive).
(PEP 515 digit-group underscores are not modelled.)  On failure both raise
`ValueError`; the numeric values themselves are never observed by this
module's callers, only parse success, so `pyFloatParse` returns `Unit`. -/

/-- Python `str.isspace`-style whitespace stripped by `int()`/`float()`
and by `str.strip()`/`str.split()`. -/
def pyIsSpace (c : Char) : Bool :=
  c == ' ' || c == '\t' || c == '\n' || c == '\r' || c == '\x0b' || c == '\x0c'

/-- Strip leading and trailing whitespace from a character list
(the semantics of Python `str.strip()`). -/
def pyStrip (l : List Char) : List Char :=
  ((l.dropWhile pyIsSpace).reverse.dropWhile pyIsSpace).reverse

/-- Drop one optional leading sign character. -/
def dropSign : List Char → List Char
  | '+' :: r => r
  | '-' :: r => r
  | l => l

/-- After stripping and sign removal, `int()` accepts exactly a non-empty
digit run. -/
def intBody (d : List Char) : Bool :=
  !d.isEmpty && d.all Char.isDigit

/-- ASCII lower-casing of one character (Python `str.lower` on the ASCII
range, which is all this module compares). -/
def pyLowerChar (c : Char) : Char :=
  if 'A' ≤ c && c ≤ 'Z' then Char.ofNat (c.toNat + 32) else c

/-- The optional exponent part of a float literal: empty, or `e`/`E`,
an optional sign and a non-empty digit run. -/
def expPart (r : List Char) : Bool :=
  match r with
  | [] => true
  | 'e' :: r2 => let m := dropSign r2; !m.isEmpty && m.all Char.isDigit
  | 'E' :: r2 => let m := dropSign r2; !m.isEmpty && m.all Char.isDigit
  | _ => false

/-- After stripping and sign removal, the body accepted by `float()`:
inf/infinity/nan, or `digits [. digits] [exponent]` with at least one
mantissa digit. -/
def floatBody (d : List Char) : Bool :=
  if d.map pyLowerChar == "inf".toList || d.map pyLowerChar == "infinity".toList
      || d.map pyLowerChar == "nan".toList then
    true
  else
    let ip := d.takeWhile Char.isDigit
    match d.dropWhile Char.isDigit with
    | [] => !ip.isEmpty
    | '.' :: r2 =>
        let fp := r2.takeWhile Char.isDigit
        (!ip.isEmpty || !fp.isEmpty) && expPart (r2.dropWhile Char.isDigit)
    | r => !ip.isEmpty && expPart r

/-- Whether `int(s)` succeeds on the string `s`. -/
def pyIntAccepts (s : String) : Bool :=
  intBody (dropSign (pyStrip s.toList))

/-- Whether `float(s)` succeeds on the string `s`. -/
def pyFloatAccepts (s : String) : Bool :=
  floatBody (dropSign (pyStrip s.toList))

/-- Numeric value of a digit run. -/
def digitsVal (d : List Char) : Nat :=
  d.foldl (fun a c => 10 * a + (c.toNat - '0'.toNat)) 0

/-- Python `int(s)` on a string: the parsed integer, or `ValueError`. -/
def pyIntParse (s : String) : Except PyExc Int :=
  let t := pyStrip s.toList
  if intBody (dropSign t) then
    .ok (match t with
      | '-' :: r => -(digitsVal r : Int)
      | '+' :: r => (digitsVal r : Int)
      | r => (digitsVal r : Int))
  else .error .valueError

/-- Python `float(s)` on a string: success (the float value itself is never
observed by this module), or `ValueError`. -/
def pyFloatParse (s : String) : Except PyExc Unit :=
  if pyFloatAccepts s then .ok () else .error .valueError

/-- `DatumUtil.is_int(str)`: `try: int(str); return True` with
`except TypeError: return False` and `except ValueError: return False`;
any other exception would propagate. -/
def DatumUtil.is_int (s : String) : Except PyExc Bool :=
  match pyIntParse s with
  | .ok _ => .ok true
  | .error .typeError => .ok false
  | .error .valueError => .ok false
  | .error e => .error e

/-- `DatumUtil.is_float(str)`: same `try/except` shape around `float`. -/
def DatumUtil.is_float (s : String) : Except PyExc Bool :=
  match pyFloatParse s with
  | .ok _ => .ok true
  | .error .typeError => .ok false
  | .error .valueError => .ok false
  | .error e => .error e

/-! ## `find_keyword` -/

/-- Python `str.lower()` (ASCII range). -/
def pyLower (s : String) : String :=
  ⟨s.toList.map pyLowerChar⟩

/-- The first loop of `find_keyword`: keep only words that are neither ints
nor floats, lower-cased.  (`DatumUtil.is_int`/`is_float` never raise, so the
boolean conditions are their `pyIntAccepts`/`pyFloatAccepts` payloads.) -/
def lowerNonNumeric (arr_line : List String) : List String :=
  arr_line.filterMap fun word =>
    if pyIntAccepts word || pyFloatAccepts word then none
    else some (pyLower word)

/-- The search loop of `find_keyword`:
`for num_words in range(len(arr_line_lower), -1, -1)`, testing the prefix of
each length (longest first) and returning it when it is a non-empty key of
the dictionary; `None` when the loop exhausts.  The dictionary is modelled
by its membership predicate `kd`. -/
def findPrefix (kd : List String → Bool) (l : List String) : Nat → Option (List String)
  | 0 => none
  | n + 1 =>
      let key := l.take (n + 1)
      if 0 < key.length ∧ kd key = true then some key
      else findPrefix kd l n

/-- `find_keyword(arr_line, keyword_dict)`. -/
def find_keyword (arr_line : List String) (kd : List String → Bool) :
    Option (List String) :=
  let low := lowerNonNumeric arr_line
  findPrefix kd low low.length

/-- If `int()` accepts a body then `float()` accepts the same body: a
non-empty all-digit run is a valid float mantissa with no fraction and no
exponent. -/
theorem intBody_imp_floatBody {d : List Char} (h : intBody d = true) :
    floatBody d = true := by
  unfold intBody at h
  rw [Bool.and_eq_true] at h
  obtain ⟨h1, h2⟩ := h
  have hall : ∀ x ∈ d, Char.isDigit x = true := by
    intro x hx
    exact List.all_eq_true.mp h2 x hx
  have hd : d.dropWhile Char.isDigit = [] := List.dropWhile_eq_nil_iff.mpr hall
  have ht : d.takeWhile Char.isDigit = d := List.takeWhile_eq_self_iff.mpr hall
  unfold floatBody
  split
  · rfl
  · simp only [hd, ht, h1]

/-- Helper: the boolean outcome of `DatumUtil.is_int` is exactly acceptance
by the `int()` parser, and no exception escapes. -/
theorem is_int_eq_ok (s : String) : DatumUtil.is_int s = .ok (pyIntAccepts s) := by
  by_cases h : intBody (dropSign (pyStrip s.data)) = true
  · simp [DatumUtil.is_int, pyIntParse, pyIntAccepts, String.toList, h]
  · simp [DatumUtil.is_int, pyIntParse, pyIntAccepts, String.toList, h]

/-- Helper: the boolean outcome of `DatumUtil.is_float` is exactly acceptance
by the `float()` parser, and no exception escapes. -/
theorem is_float_eq_ok (s : String) :
    DatumUtil.is_float s = .ok (pyFloatAccepts s) := by
  by_cases h : pyFloatAccepts s = true
  · simp [DatumUtil.is_float, pyFloatParse, h]
  · simp [DatumUtil.is_float, pyFloatParse, h]

/-- The search loop of `find_keyword` returns `none` exactly when no
non-empty prefix of length `≤ n` is in the dictionary, and any returned key
is the longest prefix of length `≤ n` in the dictionary. -/
theorem findPrefix_spec (kd : List String → Bool) (l : List String) :
    ∀ n, n ≤ l.length →
      ((findPrefix kd l n = none ↔
          ∀ m, 0 < m → m ≤ n → kd (l.take m) = false) ∧
       (∀ p, findPrefix kd l n = some p →
          ∃ m, 0 < m ∧ m ≤ n ∧ p = l.take m ∧ kd p = true ∧
            ∀ j, m < j → j ≤ n → kd (l.take j) = false)) := by
  intro n
  induction n with
  | zero =>
      intro _
      refine ⟨⟨fun _ m h1 h2 => absurd h2 (by omega), fun _ => rfl⟩, ?_⟩
      intro p hp
      simp [findPrefix] at hp
  | succ n ih =>
      intro hn
      have hlen : (l.take (n + 1)).length = n + 1 := by
        simp only [List.length_take]
        omega
      by_cases hkd : kd (l.take (n + 1)) = true
      · have heq : findPrefix kd l (n + 1) = some (l.take (n + 1)) := by
          simp [findPrefix, hlen, hkd]
        constructor
        · rw [heq]
          constructor
          · intro h; cases h
          · intro hall
            exact absurd hkd (by simp [hall (n + 1) (by omega) le_rfl])
        · intro p hp
          rw [heq] at hp
          obtain rfl : l.take (n + 1) = p := by injection hp
          exact ⟨n + 1, by omega, le_rfl, rfl, hkd,
            fun j h1 h2 => absurd h2 (by omega)⟩
      · have heq : findPrefix kd l (n + 1) = findPrefix kd l n := by
          simp [findPrefix, hlen, hkd]
        obtain ⟨ihn, ihs⟩ := ih (by omega)
        have hkdf : kd (l.take (n + 1)) = false := by
          simpa using hkd
        constructor
        · rw [heq, ihn]
          constructor
          · intro h m h1 h2
            rcases Nat.lt_or_ge m (n + 1) with hm | hm
            · exact h m h1 (by omega)
            · have : m = n + 1 := by omega
              rw [this]; exact hkdf
          · intro h m h1 h2
            exact h m h1 (by omega)
        · intro p hp
          rw [heq] at hp
          obtain ⟨m, hm1, hm2, hm3, hm4, hm5⟩ := ihs p hp
          refine ⟨m, hm1, by omega, hm3, hm4, ?_⟩
          intro j h1 h2
          rcases Nat.lt_or_ge j (n + 1) with hj | hj
          · exact hm5 j h1 (by omega)
          · have : j = n + 1 := by omega
            rw [this]; exact hkdf

/-! ## `ArrayUtil.split_data_line`

Lines are modelled as `List Char`; `str.split()` (whitespace split, empty
fields dropped) and `str.split(d)` (single-character delimiter, empty fields
kept) are embedded below.  The post-processing loop over the token list is
`fixTokens`; it can raise `IndexError` (the source evaluates `item[-1]`
inside the quote-absorbing loop without guarding against empty tokens), so
it returns `Except`. -/

/-- `quote_list = {"'", '"'}`. -/
def quoteChars : List Char := ['\'', '"']

/-- The keys of `delimiter_list = {',': 0, '\t': 0, ' ': 0}` in insertion
order (Python dict iteration order). -/
def delimiters : List Char := [',', '\t', ' ']

/-- Worker for Python `str.split()` with no argument: split on whitespace
runs, dropping empty fields; `acc` holds the current field reversed. -/
def splitWsAux : List Char → List Char → List (List Char)
  | [], acc => if acc.isEmpty then [] else [acc.reverse]
  | ch :: cs, acc =>
      if pyIsSpace ch then
        if acc.isEmpty then splitWsAux cs [] else acc.reverse :: splitWsAux cs []
      else splitWsAux cs (ch :: acc)

/-- Python `str.split()` (no argument). -/
def pySplitWs (l : List Char) : List (List Char) :=
  splitWsAux l []

/-- Python `str.split(d)` for a one-character delimiter `d`: empty fields
are kept; the empty string splits to `['']`. -/
def pySplitOn (d : Char) : List Char → List (List Char)
  | [] => [[]]
  | ch :: cs =>
      match pySplitOn d cs with
      | [] => [[]]
      | h :: t => if ch == d then [] :: h :: t else (ch :: h) :: t

/-- The `external_file` delimiter scan: starting from
`max_split_size = len(clean_line)` and `max_split_type = None`, try each
delimiter in order and keep it only when its split is strictly larger than
the current maximum. -/
def chooseDelim (stripped : List Char) (base : Nat) : Nat × Option Char :=
  delimiters.foldl
    (fun acc d =>
      let alt := pySplitOn d stripped
      if alt.length > acc.1 then (alt.length, some d) else acc)
    (base, none)

/-- The token list `clean_line` entering the fix-up loop of
`split_data_line`: the whitespace split, possibly replaced by the best
single-delimiter split when `external_file` is true. -/
def splitTokens (line : List Char) (external_file : Bool) : List (List Char) :=
  let clean := pySplitWs (pyStrip line)
  if external_file then
    match (chooseDelim (pyStrip line) clean.length).2 with
    | Option.none => clean
    | some d => pySplitOn d (pyStrip line)
  else clean

/-- The token fix-up `while` loop of `split_data_line`, with its inner
quote-absorbing loop fused in as a mode: in normal mode (`none`) skip
pure-delimiter tokens, close a both-ends-quoted token immediately (leading
and trailing characters stripped), open an absorb span on a
leading-quote-only token, and append anything else (including empty
tokens) unchanged; in absorb mode (`some acc`, the open field
`arr_fixed_line[-1]` so far) each token is appended to the field with a
single space until one ends in a quote (its trailing quote stripped, mode
returns to normal); `item[-1]` on an empty token in absorb mode raises
`IndexError`; if the tokens run out while absorbing, the whole remainder
has been merged into the open field. -/
def fixLoop : List (List Char) → Option (List Char) → Except PyExc (List (List Char))
  | [], Option.none => .ok []
  | [], some acc => .ok [acc]
  | item :: rest, Option.none =>
      if item ∈ [[','], ['\t'], [' ']] then fixLoop rest Option.none
      else
        match item with
        | [] => (fixLoop rest Option.none).map (List.cons [])
        | c :: cs =>
            if c ∈ quoteChars then
              if cs.getLastD c ∈ quoteChars then
                (fixLoop rest Option.none).map (List.cons cs.dropLast)
              else fixLoop rest (some cs)
            else (fixLoop rest Option.none).map (List.cons (c :: cs))
  | t :: rest, some acc =>
      match t.getLast? with
      | Option.none => .error .indexError
      | some ch =>
          if ch ∈ quoteChars then
            (fixLoop rest Option.none).map (List.cons (acc ++ ' ' :: t.dropLast))
          else fixLoop rest (some (acc ++ ' ' :: t))

/-- The token fix-up loop of `split_data_line`, started in normal mode. -/
def fixTokens (toks : List (List Char)) : Except PyExc (List (List Char)) :=
  fixLoop toks Option.none

/-- `ArrayUtil.split_data_line(line, external_file=False)`. -/
def split_data_line (line : String) (external_file : Bool) :
    Except PyExc (List String) :=
  (fixTokens (splitTokens line.toList external_file)).map
    (List.map (fun t => String.mk t))

/-- The single field produced by an open quoted span that finds a closing
token: the opening token's remainder `w`, the absorbed tokens `ms`, and the
closer-minus-trailing-quote `cl`, joined by single spaces. -/
def mergeField (w : List Char) (ms : List (List Char)) (cl : List Char) :
    List Char :=
  (ms.foldl (fun acc m => acc ++ ' ' :: m) w) ++ ' ' :: cl

/-- The single field produced when no closing quote is ever found: the
remainder of the line, joined by single spaces. -/
def mergeAll (w : List Char) (ms : List (List Char)) : List Char :=
  ms.foldl (fun acc m => acc ++ ' ' :: m) w

/-- Absorb mode closes on the first token ending in a quote: the absorbed
tokens and the closer (trailing quote stripped) are merged into one field,
and processing resumes in normal mode on the remaining tokens. -/
theorem fixLoop_absorb_closes (ms : List (List Char)) (c : List Char)
    (rest : List (List Char)) (acc : List Char) (xc : Char)
    (hms : ∀ m ∈ ms, ∃ x, m.getLast? = some x ∧ x ∉ quoteChars)
    (hc1 : c.getLast? = some xc) (hc2 : xc ∈ quoteChars) :
    fixLoop (ms ++ c :: rest) (some acc)
      = (fixLoop rest Option.none).map
          (List.cons (mergeField acc ms c.dropLast)) := by
  induction ms generalizing acc with
  | nil =>
      simp only [List.nil_append, fixLoop, hc1, hc2, if_true, mergeField,
        List.foldl]
  | cons m ms ih =>
      obtain ⟨x, hx1, hx2⟩ := hms m (List.mem_cons_self m ms)
      have hrec := ih (acc ++ ' ' :: m)
        (fun m' hm' => hms m' (List.mem_cons_of_mem m hm'))
      simp only [mergeField, List.foldl] at hrec
      simp only [List.cons_append, fixLoop, hx1, hx2, if_false,
        List.append_eq, mergeField, List.foldl, hrec]

/-- Absorb mode with no closing quote in sight: the whole remainder of the
token list is merged into the single open field. -/
theorem fixLoop_absorb_exhausts (ms : List (List Char)) (acc : List Char)
    (hms : ∀ m ∈ ms, ∃ x, m.getLast? = some x ∧ x ∉ quoteChars) :
    fixLoop ms (some acc) = .ok [mergeAll acc ms] := by
  induction ms generalizing acc with
  | nil => simp [fixLoop, mergeAll]
  | cons m ms ih =>
      obtain ⟨x, hx1, hx2⟩ := hms m (List.mem_cons_self m ms)
      have hrec := ih (acc ++ ' ' :: m)
        (fun m' hm' => hms m' (List.mem_cons_of_mem m hm'))
      simp only [fixLoop, hx1, hx2, if_false, hrec, mergeAll, List.foldl]

/-- A token that starts with a quote but does not end with one opens an
absorb span seeded with the token minus its leading quote. -/
theorem fixLoop_opens (q : Char) (w : List Char) (ts : List (List Char))
    (hq : q ∈ quoteChars) (hopen : w.getLastD q ∉ quoteChars) :
    fixLoop ((q :: w) :: ts) Option.none = fixLoop ts (some w) := by
  have hq' : q = '\'' ∨ q = '"' := by simpa [quoteChars] using hq
  have hnd : (q :: w) ∉ [[','], ['\t'], [' ']] := by
    rcases hq' with rfl | rfl <;> simp [List.cons.injEq]
  simp only [fixLoop, hnd, if_false, hq, if_true, hopen]

/-- The `external_file` delimiter scan: if no candidate delimiter beats the
whitespace-split field count then no delimiter is selected; otherwise the
selected delimiter strictly beats the whitespace split and no candidate
splits into more fields than it. -/
theorem chooseDelim_spec (stripped : List Char) (base : Nat) :
    ((∀ d ∈ delimiters, (pySplitOn d stripped).length ≤ base) →
        chooseDelim stripped base = (base, Option.none)) ∧
    (¬ (∀ d ∈ delimiters, (pySplitOn d stripped).length ≤ base) →
        ∃ d ∈ delimiters,
          chooseDelim stripped base = ((pySplitOn d stripped).length, some d) ∧
          base < (pySplitOn d stripped).length ∧
          ∀ d' ∈ delimiters,
            (pySplitOn d' stripped).length ≤ (pySplitOn d stripped).length) := by
  have e1 : chooseDelim stripped base =
      (fun (acc : Nat × Option Char) (d : Char) =>
        if (pySplitOn d stripped).length > acc.1
        then ((pySplitOn d stripped).length, some d) else acc)
       ((fun (acc : Nat × Option Char) (d : Char) =>
        if (pySplitOn d stripped).length > acc.1
        then ((pySplitOn d stripped).length, some d) else acc)
        ((fun (acc : Nat × Option Char) (d : Char) =>
        if (pySplitOn d stripped).length > acc.1
        then ((pySplitOn d stripped).length, some d) else acc)
          (base, Option.none) ',') '\t') ' ' := rfl
  rw [e1]
  simp only []
  split_ifs with h1 h2 h3 h4 h5 h6 h7 <;>
    (constructor
     · intro hall
       have ha' := hall ',' (by simp [delimiters])
       have hb' := hall '\t' (by simp [delimiters])
       have hs' := hall ' ' (by simp [delimiters])
       first
         | rfl
         | (exfalso; omega)
     · intro hnot
       first
         | (refine ⟨',', by simp [delimiters], rfl, by omega, ?_⟩
            intro d' hd'
            rcases (by simpa [delimiters] using hd' :
              d' = ',' ∨ d' = '\t' ∨ d' = ' ') with rfl | rfl | rfl <;> omega)
         | (refine ⟨'\t', by simp [delimiters], rfl, by omega, ?_⟩
            intro d' hd'
            rcases (by simpa [delimiters] using hd' :
              d' = ',' ∨ d' = '\t' ∨ d' = ' ') with rfl | rfl | rfl <;> omega)
         | (refine ⟨' ', by simp [delimiters], rfl, by omega, ?_⟩
            intro d' hd'
            rcases (by simpa [delimiters] using hd' :
              d' = ',' ∨ d' = '\t' ∨ d' = ' ') with rfl | rfl | rfl <;> omega)
         | (exfalso
            exact hnot (by
              intro d hd
              rcases (by simpa [delimiters] using hd :
                d = ',' ∨ d = '\t' ∨ d = ' ') with rfl | rfl | rfl <;> omega)))

/-! ## `ArrayUtil.array_comp`

Same-shape numeric arrays are modelled flattened, as equal-length lists of
exact rationals (`ℚ`); numpy's elementwise `-`, `abs` and `max` over the
flattened elements preserve the comparison logic of the source exactly. -/

/-- The `max_error` default from `ArrayUtil.__init__(path=None,
max_error=0.01)`. -/
def default_max_error : ℚ := 1 / 100

/-- `np.max` over the elements of an array: the maximum of a non-empty
list; numpy raises `ValueError` on an empty array. -/
def npMax (l : List ℚ) : Except PyExc ℚ :=
  match l with
  | [] => .error .valueError
  | x :: xs => .ok (xs.foldl max x)

/-- `ArrayUtil.array_comp(first_array, second_array)`:
`diff = first_array - second_array; max = np.max(np.abs(diff))`;
returns `False` iff `max > self.max_error`. -/
def array_comp (max_error : ℚ) (first_array second_array : List ℚ) :
    Except PyExc Bool :=
  let diff := List.zipWith (fun a b => a - b) first_array second_array
  match npMax (diff.map (fun x => |x|)) with
  | .error e => .error e
  | .ok m => if m > max_error then .ok false else .ok true

/-- A left fold of `max` is bounded by `t` iff the seed and every element
are. -/
theorem foldl_max_le_iff (t : ℚ) (xs : List ℚ) :
    ∀ x : ℚ, (xs.foldl max x ≤ t ↔ x ≤ t ∧ ∀ y ∈ xs, y ≤ t) := by
  induction xs with
  | nil => intro x; simp
  | cons y ys ih =>
      intro x
      rw [List.foldl_cons, ih (max x y)]
      constructor
      · rintro ⟨hxy, hall⟩
        rcases max_le_iff.mp hxy with ⟨hx, hy⟩
        exact ⟨hx, fun z hz => by
          rcases List.mem_cons.mp hz with rfl | hz'
          · exact hy
          · exact hall z hz'⟩
      · rintro ⟨hx, hall⟩
        exact ⟨max_le_iff.mpr ⟨hx, hall y (List.mem_cons_self y ys)⟩,
          fun z hz => hall z (List.mem_cons_of_mem y hz)⟩

/-- The absolute elementwise differences, as a map over the zipped pairs. -/
theorem absDiff_eq_map_zip (a b : List ℚ) :
    (List.zipWith (fun x y => x - y) a b).map (fun x => |x|)
      = (List.zip a b).map (fun p => |p.1 - p.2|) := by
  induction a generalizing b with
  | nil => simp
  | cons x as ih =>
      cases b with
      | nil => simp
      | cons y bs => simp [ih]

/-! ## `ArrayTemplateGenerator.empty` -/

/-- Modelled from the spec: the storage kinds of a data field
(`mfdata.DataStorageType`, defined outside this module): in-memory dense
array, constant fill, or external-file reference. -/
inductive DataStorageType where
  | internal_array
  | internal_constant
  | external_file
deriving DecidableEq

/-- Modelled from the spec: whether the field varies over discrete
simulation periods (`mfstructure.DataType.array_transient`, defined outside
this module) or not. -/
inductive MFDataType where
  | array_steady
  | array_transient
deriving DecidableEq

/-- Modelled from the spec: the element type of the field resolved by the
external schema (`data_struct.get_datum_type()`): integer or float. -/
inductive NumType where
  | intT
  | floatT
deriving DecidableEq

/-- The data part built by `_build_layer`: `np.empty(shape)`,
`np.full(shape, v)`, a constant scalar, or `None`. -/
inductive LayerData where
  | emptyArr (shape : List Nat)
  | fullArr (shape : List Nat) (v : ℚ)
  | constVal (v : ℚ)
  | noneData
deriving DecidableEq

/-- The wrappings produced by `TemplateGenerator.build_type_header`:
`factor`/`iprn`/`data` mapping for internal arrays, the raw value for
constants, the `filename`/`factor`/`iprn` mapping for external files. -/
inductive TypeHeader where
  | arrayDict (factor : ℚ) (iprn : Int) (data : LayerData)
  | rawData (data : LayerData)
  | extFileDict (filename : String) (factor : ℚ) (iprn : Int)
  | noneHeader
deriving DecidableEq

/-- `TemplateGenerator.build_type_header(type, data)` as called from
`ArrayTemplateGenerator` (for which the `internal_array` branch returns the
`factor=1.0, iprn=1, data` mapping). -/
def build_type_header (t : DataStorageType) (data : LayerData) : TypeHeader :=
  match t with
  | .internal_array => .arrayDict 1 1 data
  | .internal_constant => .rawData data
  | .external_file => .extFileDict "" 1 1

/-- `ArrayTemplateGenerator._build_layer(data_type, data_storage_type,
default_value, dimension_list, all_layers)`: dense arrays use the full
dimension list when `all_layers` else the per-layer shape
`dimension_list[1:]`; constants default to 0 (int datum type) / 0.0 (other)
when no default is given; external-file storage carries no data. -/
def _build_layer (data_type : NumType) (data_storage_type : DataStorageType)
    (default_value : Option ℚ) (dimension_list : List Nat)
    (all_layers : Bool) : TypeHeader :=
  match data_storage_type with
  | .internal_array =>
      build_type_header .internal_array
        (match default_value with
         | Option.none =>
             .emptyArr (if all_layers then dimension_list
               else dimension_list.drop 1)
         | some v =>
             .fullArr (if all_layers then dimension_list
               else dimension_list.drop 1) v)
  | .internal_constant =>
      build_type_header .internal_constant
        (match default_value with
         | Option.none => .constVal (if data_type = .intT then 0 else 0)
         | some v => .constVal v)
  | .external_file => build_type_header .external_file .noneData

/-- The built template: one combined header, or one header per layer. -/
inductive ArrayTemplate where
  | single (h : TypeHeader)
  | layered (hs : List TypeHeader)
deriving DecidableEq

/-- The value returned by `ArrayTemplateGenerator.empty`: the template,
wrapped in a period-0 mapping when the field is transient. -/
inductive EmptyResult where
  | plain (t : ArrayTemplate)
  | transientDict (t : ArrayTemplate)
deriving DecidableEq

/-- The final wrapping of `empty`: transient array data is returned as the
dictionary `(0 : data_with_header)`. -/
def wrapResult (data_type : MFDataType) (t : ArrayTemplate) : EmptyResult :=
  match data_type with
  | .array_transient => .transientDict t
  | .array_steady => .plain t

/-- `ArrayTemplateGenerator.empty(model, layered, data_storage_type_list,
default_value)`.  The schema/dimension resolution (`_get_data_dimensions`,
`mfdata.DataStorage.get_data_dimensions`) lives outside this module and is
modelled from the spec by its outcome: the resolved `dimension_list` (layer
count first), the field's datum type, and its (transient or not) data type
are taken as arguments.  When `layered` and `dimension_list[0] > 1`, a
given `data_storage_type_list` whose length differs from the layer count
raises `MFDataException` (after printing a diagnostic, a side effect not
modelled); otherwise one header per layer is built.  On the non-layered
path no length check occurs: `data_storage_type_list[0]` (an `IndexError`
on an empty list) selects the storage type of the single combined
template. -/
def ArrayTemplateGenerator_empty (dimension_list : List Nat)
    (datum_type : NumType) (data_type : MFDataType) (layered : Bool)
    (data_storage_type_list : Option (List DataStorageType))
    (default_value : Option ℚ) : Except PyExc EmptyResult :=
  let nlayers := dimension_list.headD 0
  if layered = true ∧ 1 < nlayers then
    match data_storage_type_list with
    | some l =>
        if l.length ≠ nlayers then
          .error (.mfDataException
            "data_storage_type_list specified with the wrong size")
        else
          .ok (wrapResult data_type (.layered ((List.range nlayers).map
            (fun layer =>
              -- the length check above makes `layer` in range, so the
              -- `getD` default is never used
              _build_layer datum_type (l.getD layer .internal_array)
                default_value dimension_list false))))
    | Option.none =>
        .ok (wrapResult data_type (.layered ((List.range nlayers).map
          (fun _ =>
            _build_layer datum_type .internal_array default_value
              dimension_list false))))
  else
    match data_storage_type_list with
    | Option.none =>
        .ok (wrapResult data_type (.single
          (_build_layer datum_type .internal_array default_value
            dimension_list true)))
    | some [] => .error .indexError
    | some (dst0 :: _) =>
        -- `data_storage_type_list[0] == internal_array` selects
        -- `internal_array`, which collapses to `dst0` either way
        .ok (wrapResult data_type (.single
          (_build_layer datum_type
            (if dst0 = .internal_array then .internal_array else dst0)
            default_value dimension_list true)))

/-! ## `ArrayIndexIter`

The iterator's mutable state is the structure below; `__next__` is
`aiiNext`, whose `while self.current_index >= 0` loop is `aiiLoop`
(running on fuel `current_index + 1`, one unit per index examined, which is
exactly the number of remaining loop iterations possible).  The reference
enumeration `coords` is the row-major (last-axis-fastest) coordinate list
of a rectangular shape. -/

/-- The state of `ArrayIndexIter(array_shape)`. -/
structure ArrayIndexIter where
  array_shape : List Nat
  current_location : List Nat
  current_index : Int
  first_item : Bool

/-- `ArrayIndexIter.__init__`: all-zero location, `current_index =
len(current_location) - 1`, `first_item = True`. -/
def aiiInit (array_shape : List Nat) : ArrayIndexIter :=
  { array_shape := array_shape
    current_location := List.replicate array_shape.length 0
    current_index := (array_shape.length : Int) - 1
    first_item := true }

/-- The `while self.current_index >= 0` loop of `__next__`, on fuel
`current_index + 1`: examine `current_location[i]`; if it can still grow
(`< array_shape[i] - 1`) increment it and yield the updated location,
else zero it and move to the previous index; falling off index 0 ends the
iteration.  Returns the yielded location (if any) together with the final
location list (which the loop zeroes along the way). -/
def aiiLoop (shape : List Nat) : List Nat → Nat → Option (List Nat) × List Nat
  | loc, 0 => (Option.none, loc)
  | loc, i + 1 =>
      if loc.getD i 0 < shape.getD i 0 - 1 then
        (some (loc.set i (loc.getD i 0 + 1)), loc.set i (loc.getD i 0 + 1))
      else aiiLoop shape (loc.set i 0) i

/-- `ArrayIndexIter.__next__`, returning the yielded location (`none` for
`StopIteration`) and the successor state: the first call yields the initial
location; later calls run the odometer loop, resetting `current_index` to
`len(current_location) - 1` after a yield and leaving it at `-1` on
exhaustion (so every later call raises `StopIteration` again). -/
def aiiNext (s : ArrayIndexIter) : Option (List Nat) × ArrayIndexIter :=
  if s.first_item then
    (some s.current_location, { s with first_item := false })
  else
    match aiiLoop s.array_shape s.current_location (s.current_index + 1).toNat with
    | (some loc, _) =>
        (some loc,
          { s with
              current_location := loc
              current_index := (loc.length : Int) - 1 })
    | (Option.none, loc) =>
        (Option.none,
          { s with current_location := loc, current_index := -1 })

/-- The value actually returned by `__next__`: `tuple(current_location)`
when the rank exceeds 1, else the single integer `current_location[0]`
(rank 0, where Python would raise `IndexError`, is outside the claims'
domain of positive-size shapes). -/
inductive PyIndex where
  | single (n : Nat)
  | tuple (l : List Nat)
deriving DecidableEq

/-- Yield conversion of a location list. -/
def pyYield (loc : List Nat) : PyIndex :=
  if 1 < loc.length then .tuple loc else .single (loc.headD 0)

/-- Iterate `aiiNext` at most `fuel` times, collecting the yielded
locations in order and stopping at the first `StopIteration`. -/
def aiiRun (s : ArrayIndexIter) : Nat → List (List Nat)
  | 0 => []
  | fuel + 1 =>
      match aiiNext s with
      | (some loc, s') => loc :: aiiRun s' fuel
      | (Option.none, _) => []

/-- The sequence of Python values yielded by iterating the iterator. -/
def aiiRunPy (s : ArrayIndexIter) (fuel : Nat) : List PyIndex :=
  (aiiRun s fuel).map pyYield

/-- The reference enumeration: all coordinates of a rectangular shape in
row-major order — the first axis varies slowest, the last axis fastest,
from the all-zero coordinate up to the all-`(size-1)` coordinate. -/
def coords : List Nat → List (List Nat)
  | [] => [[]]
  | n :: rest => (List.range n).flatMap (fun i => (coords rest).map (i :: ·))

/-- The same enumeration over reversed coordinate lists (least-significant
digit first), in the same order; this matches the odometer's
last-index-first carry direction. -/
def enumRev : List Nat → List (List Nat)
  | [] => [[]]
  | n :: ns => (enumRev ns).flatMap (fun c => (List.range n).map (· :: c))

/-- Odometer increment on reversed (least-significant-first) digit lists:
grow the first digit if possible, else zero it and carry; `none` when every
digit is maximal. -/
def incRev : List Nat → List Nat → Option (List Nat)
  | n :: ns, x :: xs =>
      if x < n - 1 then some ((x + 1) :: xs)
      else (incRev ns xs).map (fun ys => 0 :: ys)
  | _, _ => Option.none

/-- `OrbitRel s l L`: the chain of `incRev` steps starting at `l`
(inclusive) is exactly `L`, ending at the digit list on which `incRev`
returns `none`. -/
inductive OrbitRel (s : List Nat) : List Nat → List (List Nat) → Prop
  | last (l : List Nat) : incRev s l = Option.none → OrbitRel s l [l]
  | step (l l' : List Nat) (L : List (List Nat)) :
      incRev s l = some l' → OrbitRel s l' L → OrbitRel s l (l :: L)

/-- An orbit starts at its starting digit list. -/
theorem orbit_head {s l : List Nat} {L : List (List Nat)}
    (h : OrbitRel s l L) : ∃ t, L = l :: t := by
  cases h with
  | last _ _ => exact ⟨[], rfl⟩
  | step _ _ L _ _ => exact ⟨L, rfl⟩

/-- `incRev` preserves the number of digits. -/
theorem incRev_length : ∀ (s l l' : List Nat),
    incRev s l = some l' → l'.length = l.length := by
  intro s
  induction s with
  | nil => intro l l' h; cases l <;> simp [incRev] at h
  | cons n ns ih =>
      intro l l' h
      cases l with
      | nil => simp [incRev] at h
      | cons x xs =>
          simp only [incRev] at h
          split at h
          · injection h with h'
            subst h'
            rfl
          · cases hrec : incRev ns xs with
            | none => rw [hrec] at h; cases h
            | some ys =>
                rw [hrec] at h
                injection h with h'
                subst h'
                simp [ih xs ys hrec]

/-- One full cycle of the least-significant digit: from `i :: c` (with
`i + k = n`, `k > 0`) the orbit runs through `i, i+1, …, n-1` over the same
higher digits `c`, then continues with the carried-into orbit `T` (empty
when the higher digits cannot be incremented). -/
theorem orbit_cycle (n : Nat) (ns : List Nat) (c : List Nat)
    (T : List (List Nat))
    (hT : (incRev ns c = Option.none ∧ T = []) ∨
          (∃ c', incRev ns c = some c' ∧ OrbitRel (n :: ns) (0 :: c') T)) :
    ∀ k, 0 < k → ∀ i, i + k = n →
      OrbitRel (n :: ns) (i :: c) (((List.range' i k).map (· :: c)) ++ T) := by
  intro k
  induction k with
  | zero => intro h; omega
  | succ k ih =>
      intro _ i hi
      rcases Nat.eq_zero_or_pos k with hk0 | hkpos
      · subst hk0
        have hstep : incRev (n :: ns) (i :: c)
            = (incRev ns c).map (fun ys => 0 :: ys) := by
          simp only [incRev]
          rw [if_neg (by omega)]
        rcases hT with ⟨hnone, rfl⟩ | ⟨c', hsome, hOrb⟩
        · have hlast : incRev (n :: ns) (i :: c) = Option.none := by
            rw [hstep, hnone]; rfl
          simpa [List.range'] using OrbitRel.last (s := n :: ns) (i :: c) hlast
        · have hsome' : incRev (n :: ns) (i :: c) = some (0 :: c') := by
            rw [hstep, hsome]; rfl
          simpa [List.range'] using
            OrbitRel.step (i :: c) (0 :: c') T hsome' hOrb
      · have hstep : incRev (n :: ns) (i :: c) = some ((i + 1) :: c) := by
          simp only [incRev]
          rw [if_pos (by omega)]
        have hrec := ih hkpos (i + 1) (by omega)
        have hsplit : (List.range' i (k + 1)).map (· :: c) ++ T
            = (i :: c) :: ((List.range' (i + 1) k).map (· :: c) ++ T) := by
          rw [List.range'_succ i k 1]
          simp
        rw [hsplit]
        exact OrbitRel.step _ _ _ hstep hrec

/-- Lifting an orbit of the higher digits: prefixing a full cycle of the new
least-significant digit (of size `n > 0`) before each higher-digit state
gives the orbit of the extended odometer started at `0 :: c`. -/
theorem orbit_flatMap (n : Nat) (hn : 0 < n) (ns : List Nat) :
    ∀ (c : List Nat) (X : List (List Nat)), OrbitRel ns c X →
      OrbitRel (n :: ns) (0 :: c)
        (X.flatMap (fun hc => (List.range n).map (· :: hc))) := by
  intro c X h
  induction h with
  | last l hl =>
      have h0 := orbit_cycle n ns l [] (Or.inl ⟨hl, rfl⟩) n hn 0 (by omega)
      simpa [List.range_eq_range'] using h0
  | step l l' L hstep _horb ih =>
      have h0 := orbit_cycle n ns l
        (L.flatMap (fun hc => (List.range n).map (· :: hc)))
        (Or.inr ⟨l', hstep, ih⟩) n hn 0 (by omega)
      simpa [List.range_eq_range'] using h0

/-- For a shape with positive sizes, the odometer orbit from the all-zero
digit list is exactly the reversed-coordinate enumeration. -/
theorem orbit_enumRev : ∀ (s : List Nat), (∀ n ∈ s, 0 < n) →
    OrbitRel s (List.replicate s.length 0) (enumRev s) := by
  intro s
  induction s with
  | nil => intro _; exact OrbitRel.last [] rfl
  | cons n ns ih =>
      intro hpos
      have h1 := ih fun m hm => hpos m (List.mem_cons_of_mem n hm)
      have h2 := orbit_flatMap n (hpos n (List.mem_cons_self n ns)) ns _ _ h1
      simpa [enumRev, List.replicate_succ] using h2

/-- `getD` at the position of the appended last element. -/
theorem getD_concat_self {α : Type} (xs : List α) (y d : α) :
    (xs ++ [y]).getD xs.length d = y := by
  induction xs with
  | nil => rfl
  | cons a as ih => simp [ih]

/-- `getD` left of the appended last element. -/
theorem getD_concat_lt {α : Type} (xs : List α) (y d : α) :
    ∀ i, i < xs.length → (xs ++ [y]).getD i d = xs.getD i d := by
  induction xs with
  | nil => intro i h; simp at h
  | cons a as ih =>
      intro i h
      cases i with
      | zero => rfl
      | succ j => simpa using ih j (by simpa using h)

/-- `set` at the position of the appended last element. -/
theorem set_concat_self {α : Type} (xs : List α) (y v : α) :
    (xs ++ [y]).set xs.length v = xs ++ [v] := by
  induction xs with
  | nil => rfl
  | cons a as ih => simp [ih]

/-- `set` left of the appended last element. -/
theorem set_concat_lt {α : Type} (xs : List α) (y v : α) :
    ∀ i, i < xs.length → (xs ++ [y]).set i v = xs.set i v ++ [y] := by
  induction xs with
  | nil => intro i h; simp at h
  | cons a as ih =>
      intro i h
      cases i with
      | zero => rfl
      | succ j => simpa using ih j (by simpa using h)

/-- The odometer loop never reaches the appended last component while its
fuel stays within the length of the shorter list: the last component rides
along unchanged. -/
theorem aiiLoop_snoc (ns : List Nat) (n : Nat) :
    ∀ (f : Nat) (xs : List Nat) (y : Nat), xs.length = ns.length →
      f ≤ xs.length →
      (aiiLoop (ns ++ [n]) (xs ++ [y]) f).1
        = ((aiiLoop ns xs f).1).map (· ++ [y]) := by
  intro f
  induction f with
  | zero => intros; rfl
  | succ i ih =>
      intro xs y hlen hf
      have hi : i < xs.length := by omega
      simp only [aiiLoop]
      rw [getD_concat_lt xs y 0 i hi, getD_concat_lt ns n 0 i (by omega)]
      by_cases hlt : xs.getD i 0 < ns.getD i 0 - 1
      · rw [if_pos hlt, if_pos hlt, set_concat_lt xs y _ i hi]
        rfl
      · rw [if_neg hlt, if_neg hlt, set_concat_lt xs y 0 i hi]
        exact ih (xs.set i 0) y (by simpa using hlen) (by simpa using hi.le)

/-- The source's index-descending odometer loop, started at the last index,
computes exactly the reversed-digit-list increment `incRev`. -/
theorem aiiLoop_eq_incRev : ∀ (shape loc : List Nat),
    loc.length = shape.length →
    (aiiLoop shape loc shape.length).1
      = (incRev shape.reverse loc.reverse).map List.reverse := by
  intro shape
  induction shape using List.reverseRecOn with
  | nil =>
      intro loc h
      rw [List.eq_nil_of_length_eq_zero h]
      rfl
  | append_singleton ns n ih =>
      intro loc hlen
      have hne : loc ≠ [] := by
        intro h
        rw [h] at hlen
        simp at hlen
      obtain ⟨xs, y, rfl⟩ : ∃ xs y, loc = xs ++ [y] :=
        ⟨loc.dropLast, loc.getLast hne,
          (List.dropLast_append_getLast hne).symm⟩
      have hxs : xs.length = ns.length := by simpa using hlen
      have hrevs : (ns ++ [n]).reverse = n :: ns.reverse := by simp
      have hrevl : (xs ++ [y]).reverse = y :: xs.reverse := by simp
      have hflen : (ns ++ [n]).length = xs.length + 1 := by simp [hxs]
      rw [hflen, hrevs, hrevl]
      simp only [aiiLoop, incRev]
      rw [getD_concat_self xs y 0,
        show (ns ++ [n]).getD xs.length 0 = n from hxs ▸ getD_concat_self ns n 0]
      by_cases hlt : y < n - 1
      · rw [if_pos hlt, if_pos hlt, set_concat_self xs y (y + 1)]
        simp
      · rw [if_neg hlt, if_neg hlt, set_concat_self xs y 0]
        rw [aiiLoop_snoc ns n xs.length xs 0 hxs le_rfl]
        rw [hxs, ih xs (by rw [hxs])]
        cases hrec : incRev ns.reverse xs.reverse with
        | none => rfl
        | some ys => simp

/-- Unfolding one iteration of `aiiRun`. -/
theorem aiiRun_succ (s : ArrayIndexIter) (f : Nat) :
    aiiRun s (f + 1)
      = match aiiNext s with
        | (some loc, s') => loc :: aiiRun s' f
        | (Option.none, _) => [] := rfl

/-- A non-first `__next__` call on a state whose (reversed) location can be
incremented yields the incremented location and restores the invariant
state shape. -/
theorem aiiNext_step (shape lR l' : List Nat)
    (hlen : lR.length = shape.length)
    (hstep : incRev shape.reverse lR = some l') :
    aiiNext ⟨shape, lR.reverse, (shape.length : Int) - 1, false⟩
      = (some l'.reverse,
         ⟨shape, l'.reverse, (shape.length : Int) - 1, false⟩) := by
  have hlen' : l'.length = shape.length :=
    (incRev_length shape.reverse lR l' hstep).trans hlen
  have hfuel : (((shape.length : Int) - 1) + 1).toNat = shape.length := by
    omega
  have hb := aiiLoop_eq_incRev shape lR.reverse (by simpa using hlen)
  rw [List.reverse_reverse, hstep] at hb
  rcases hp : aiiLoop shape lR.reverse shape.length with ⟨o, lfin⟩
  rw [hp] at hb
  simp only [Option.map_some'] at hb
  subst hb
  dsimp only [aiiNext]
  rw [if_neg (by simp)]
  rw [hfuel, hp]
  dsimp only
  rw [show ((l'.reverse.length : Int) - 1) = ((shape.length : Int) - 1) by
    simp [hlen']]

/-- A non-first `__next__` call on a state whose (reversed) location is
all-maximal raises `StopIteration`. -/
theorem aiiNext_stop (shape lR : List Nat)
    (hlen : lR.length = shape.length)
    (hstop : incRev shape.reverse lR = Option.none) :
    (aiiNext ⟨shape, lR.reverse, (shape.length : Int) - 1, false⟩).1
      = Option.none := by
  have hfuel : (((shape.length : Int) - 1) + 1).toNat = shape.length := by
    omega
  have hb := aiiLoop_eq_incRev shape lR.reverse (by simpa using hlen)
  rw [List.reverse_reverse, hstop] at hb
  rcases hp : aiiLoop shape lR.reverse shape.length with ⟨o, lfin⟩
  rw [hp] at hb
  simp only [Option.map_none'] at hb
  subst hb
  dsimp only [aiiNext]
  rw [if_neg (by simp)]
  rw [hfuel, hp]

/-- Running the iterator from a non-first state whose reversed location
starts an orbit `L` yields exactly the rest of the orbit (everything after
the current location), for any surplus fuel. -/
theorem aiiRun_of_orbit (shape : List Nat) :
    ∀ (lR : List Nat) (L : List (List Nat)), OrbitRel shape.reverse lR L →
      lR.length = shape.length → ∀ e,
      aiiRun ⟨shape, lR.reverse, (shape.length : Int) - 1, false⟩
          ((L.length - 1) + e)
        = (L.map List.reverse).tail := by
  intro lR L h
  induction h with
  | last l hl =>
      intro hlen e
      cases e with
      | zero => simp [aiiRun]
      | succ e' =>
          rw [show ([l].length - 1 + (e' + 1)) = e' + 1 by simp]
          rw [aiiRun_succ]
          rcases hq : aiiNext ⟨shape, l.reverse, (shape.length : Int) - 1,
              false⟩ with ⟨o, s'⟩
          have ho : o = Option.none := by
            have := aiiNext_stop shape l hlen hl
            rw [hq] at this
            exact this
          subst ho
          simp
  | step l l' L' hstep horb ih =>
      intro hlen e
      have hlen' : l'.length = shape.length :=
        (incRev_length shape.reverse l l' hstep).trans hlen
      obtain ⟨t, rfl⟩ := orbit_head horb
      rw [show ((l :: l' :: t).length - 1 + e) = (t.length + e) + 1 by
        simp [List.length_cons]; omega]
      rw [aiiRun_succ, aiiNext_step shape l l' hlen hstep]
      dsimp only
      have := ih hlen' e
      rw [show ((l' :: t).length - 1 + e) = t.length + e by simp] at this
      rw [this]
      simp

/-- A `flatMap` whose pieces all have length `k` has length `l.length * k`. -/
theorem flatMap_const_length {α β : Type} (f : α → List β) (k : Nat) :
    ∀ l : List α, (∀ a ∈ l, (f a).length = k) →
      (l.flatMap f).length = l.length * k := by
  intro l
  induction l with
  | nil => intro _; simp
  | cons a as ih =>
      intro h
      rw [List.flatMap_cons, List.length_append, h a (List.mem_cons_self a as),
        ih fun b hb => h b (List.mem_cons_of_mem a hb)]
      simp [Nat.succ_mul]
      omega

/-- The row-major enumeration has exactly `∏ sizes` coordinates. -/
theorem coords_length : ∀ s : List Nat, (coords s).length = s.prod := by
  intro s
  induction s with
  | nil => rfl
  | cons n rest ih =>
      rw [show coords (n :: rest)
          = (List.range n).flatMap (fun i => (coords rest).map (i :: ·))
          from rfl]
      rw [flatMap_const_length _ rest.prod _
        (fun a _ => by rw [List.length_map, ih])]
      simp [List.prod_cons]

/-- Every enumerated coordinate has one component per axis. -/
theorem coords_mem_length : ∀ s : List Nat, ∀ c ∈ coords s,
    c.length = s.length := by
  intro s
  induction s with
  | nil => intro c hc; simp [coords] at hc; simp [hc]
  | cons n rest ih =>
      intro c hc
      simp only [coords, List.mem_flatMap, List.mem_map] at hc
      obtain ⟨i, _, c', hc', rfl⟩ := hc
      simp [ih c' hc']

/-- Every enumerated coordinate is componentwise within bounds. -/
theorem coords_bounds : ∀ s : List Nat, ∀ c ∈ coords s,
    List.Forall₂ (fun x n => x < n) c s := by
  intro s
  induction s with
  | nil => intro c hc; simp [coords] at hc; simp [hc]
  | cons n rest ih =>
      intro c hc
      simp only [coords, List.mem_flatMap, List.mem_map] at hc
      obtain ⟨i, hi, c', hc', rfl⟩ := hc
      exact List.Forall₂.cons (List.mem_range.mp hi) (ih c' hc')

/-- For positive sizes the enumeration is non-empty. -/
theorem coords_ne_nil (s : List Nat) (hpos : ∀ n ∈ s, 0 < n) :
    coords s ≠ [] := by
  apply List.ne_nil_of_length_pos
  rw [coords_length]
  exact List.prod_pos hpos

/-- The enumeration starts at the all-zero coordinate. -/
theorem coords_head : ∀ s : List Nat, (∀ n ∈ s, 0 < n) →
    (coords s).head? = some (List.replicate s.length 0) := by
  intro s
  induction s with
  | nil => intro _; rfl
  | cons n rest ih =>
      intro hpos
      have ihr := ih fun m hm => hpos m (List.mem_cons_of_mem n hm)
      rcases hcr : coords rest with _ | ⟨c₀, cs⟩
      · exact absurd hcr
          (coords_ne_nil rest fun m hm => hpos m (List.mem_cons_of_mem n hm))
      rw [hcr] at ihr
      have hc₀ : c₀ = List.replicate rest.length 0 := by
        simpa using ihr
      obtain ⟨m, rfl⟩ : ∃ m, n = m + 1 :=
        ⟨n - 1, by have := hpos n (List.mem_cons_self n rest); omega⟩
      rw [show coords ((m + 1) :: rest)
          = (List.range (m + 1)).flatMap
              (fun i => (coords rest).map (i :: ·)) from rfl]
      rw [List.range_succ_eq_map, List.flatMap_cons, hcr]
      simp [hc₀, List.replicate_succ]

/-- The enumeration ends at the all-`(size-1)` coordinate. -/
theorem coords_last : ∀ s : List Nat, (∀ n ∈ s, 0 < n) →
    (coords s).getLast? = some (s.map (fun n => n - 1)) := by
  intro s
  induction s with
  | nil => intro _; rfl
  | cons n rest ih =>
      intro hpos
      have ihr := ih fun m hm => hpos m (List.mem_cons_of_mem n hm)
      have hne : coords rest ≠ [] :=
        coords_ne_nil rest fun m hm => hpos m (List.mem_cons_of_mem n hm)
      obtain ⟨m, rfl⟩ : ∃ m, n = m + 1 :=
        ⟨n - 1, by have := hpos n (List.mem_cons_self n rest); omega⟩
      rw [show coords ((m + 1) :: rest)
          = (List.range (m + 1)).flatMap
              (fun i => (coords rest).map (i :: ·)) from rfl]
      rw [show List.range (m + 1) = List.range m ++ [m] from List.range_succ m]
      rw [List.flatMap_append]
      rw [List.getLast?_append_of_ne_nil _ (by simp [hne])]
      simp only [List.flatMap_cons, List.flatMap_nil, List.append_nil]
      rw [List.getLast?_map, ihr]
      simp

/-- The enumeration has no duplicate coordinates. -/
theorem coords_nodup : ∀ s : List Nat, (coords s).Nodup := by
  intro s
  induction s with
  | nil => simp [coords]
  | cons n rest ih =>
      rw [show coords (n :: rest)
          = (List.range n).flatMap (fun i => (coords rest).map (i :: ·))
          from rfl]
      rw [List.nodup_flatMap]
      constructor
      · intro i _
        exact ih.map fun a b h => by injection h
      · apply List.Pairwise.imp ?_ (List.nodup_range n)
        intro i j hij
        intro c hci hcj
        obtain ⟨c₁, _, rfl⟩ := List.mem_map.mp hci
        obtain ⟨c₂, _, heq⟩ := List.mem_map.mp hcj
        injection heq with h1 _
        exact hij h1.symm

/-- A `flatMap` of singletons is a `map`. -/
theorem flatMap_singleton_map {α β : Type} (g : α → β) :
    ∀ l : List α, (l.flatMap fun a => [g a]) = l.map g := by
  intro l
  induction l with
  | nil => rfl
  | cons a as ih => simp [List.flatMap_cons, ih]

/-- Appending a most-significant axis to the reversed enumeration. -/
theorem enumRev_snoc : ∀ (ns : List Nat) (n : Nat),
    enumRev (ns ++ [n])
      = (List.range n).flatMap (fun i => (enumRev ns).map (· ++ [i])) := by
  intro ns
  induction ns with
  | nil =>
      intro n
      simp [enumRev, flatMap_singleton_map]
  | cons m ms ih =>
      intro n
      rw [List.cons_append]
      rw [show enumRev (m :: (ms ++ [n]))
          = (enumRev (ms ++ [n])).flatMap
              (fun c => (List.range m).map (· :: c)) from rfl]
      rw [ih n]
      rw [show enumRev (m :: ms)
          = (enumRev ms).flatMap (fun c => (List.range m).map (· :: c))
          from rfl]
      rw [List.flatMap_assoc]
      congr 1
      funext i
      rw [List.map_flatMap, List.flatMap_map]
      congr 1
      funext c
      simp [List.map_map, Function.comp_def]

/-- The row-major enumeration, with every coordinate reversed, is the
reversed-shape least-significant-first enumeration. -/
theorem coords_map_reverse : ∀ s : List Nat,
    (coords s).map List.reverse = enumRev s.reverse := by
  intro s
  induction s with
  | nil => rfl
  | cons n rest ih =>
      rw [show coords (n :: rest)
          = (List.range n).flatMap (fun i => (coords rest).map (i :: ·))
          from rfl]
      rw [List.reverse_cons, enumRev_snoc, List.map_flatMap]
      congr 1
      funext i
      rw [← ih, List.map_map, List.map_map]
      congr 1
      funext c
      simp

end MfDataUtil

namespace MfDataUtil

/-- C1: `multi_dim_list_size` on the one-element list `[1]`.  The claim says
it returns the number of scalar leaves (here 1); the code instead raises
`ValueError`, because `next_item` yields 4-tuples while the counting loop
unpacks each yield into only two names (`for item, last_item in ...`).
The first two conjuncts exhibit the mechanism: the generator yields exactly
one 4-component tuple, whose unpacking into two names fails. -/
theorem c1_multi_dim_list_size_raises :
    next_item (.list [.int 1]) true 0 true
      = [[.tree (.int 1), .bool true, .bool true, .int 0]] ∧
    unpack2 [.tree (.int 1), .bool true, .bool true, .int 0]
      = .error .valueError ∧
    multi_dim_list_size (.list [.int 1]) = .error .valueError ∧
    leafCount (.list [.int 1]) = 1 ∧
    multi_dim_list_size .none = .ok 0 ∧
    multi_dim_list_size (.int 7) = .ok 1 ∧
    multi_dim_list_size (.list []) = .ok 0 := by
  refine ⟨rfl, rfl, rfl, rfl, rfl, rfl, rfl⟩

/-- C9: `has_one_item` on `[[1]]` (a single-element list whose element is a
list).  The claim says `has_one_item` evaluates without error to a boolean;
the code instead raises `TypeError`, because it computes
`len(current_list[0] != 0)`: the comparison `[1] != 0` yields the bool `True`
and `len(True)` raises.  On the non-raising inputs the boolean outcomes are
as exhibited. -/
theorem c9_has_one_item_raises :
    has_one_item (.list [.list [.int 1]]) = .error .typeError ∧
    has_one_item (.list [.list []]) = .error .typeError ∧
    has_one_item (.int 5) = .ok true ∧
    has_one_item (.list [.int 5]) = .ok true ∧
    has_one_item (.list []) = .ok false ∧
    has_one_item (.list [.int 1, .int 2]) = .ok false := by
  refine ⟨rfl, rfl, rfl, rfl, rfl, rfl⟩

/-- C6: the numeric classifiers always return a boolean and never let an
exception reach the caller: every parse failure of the Python built-in
(`ValueError`, or `TypeError` for non-string arguments) is caught and
converted to `False`, and a successful parse yields `True`.  Both classifiers
are pure functions of their argument (the embedding is a total function). -/
theorem c6_classifiers_never_raise (s : String) :
    DatumUtil.is_int s = Except.ok (pyIntAccepts s) ∧
    DatumUtil.is_float s = Except.ok (pyFloatAccepts s) := by
  exact ⟨is_int_eq_ok s, is_float_eq_ok s⟩

/-- C10: the classifiers are nested — every string accepted as an integer
literal is accepted as a float literal (`is_int s = True → is_float s =
True`), while the converse fails at `"1.5"`. -/
theorem c10_is_int_subset_is_float :
    (∀ s : String, DatumUtil.is_int s = .ok true →
        DatumUtil.is_float s = .ok true) ∧
    DatumUtil.is_int "1.5" = .ok false ∧
    DatumUtil.is_float "1.5" = .ok true := by
  refine ⟨?_, rfl, rfl⟩
  intro s h
  have hint : pyIntAccepts s = true := by
    rw [is_int_eq_ok s] at h
    injection h
  have hfl : pyFloatAccepts s = true := intBody_imp_floatBody hint
  rw [is_float_eq_ok s, hfl]

/-- Witness for C10 at the concrete input `"12"`. -/
theorem c10_is_int_subset_is_float_witness :
    DatumUtil.is_float "12" = .ok true :=
  c10_is_int_subset_is_float.1 "12" (by rfl)

/-- C5: `find_keyword` lower-cases the non-numeric tokens (numeric tokens are
not keywords and take no part in the matched prefix), and returns the longest
non-empty contiguous prefix of that processed token list that is a key of
`keyword_dict` — searching lengths in decreasing order — or `None` when no
non-empty prefix is a key.  The final conjunct is the concrete example
`find_keyword(['CONSTANT','1.0'], {('constant',): KEY}) = ('constant',)`. -/
theorem c5_find_keyword (arr_line : List String) (kd : List String → Bool) :
    (find_keyword arr_line kd = none ↔
      ∀ m, 0 < m → m ≤ (lowerNonNumeric arr_line).length →
        kd ((lowerNonNumeric arr_line).take m) = false) ∧
    (∀ p, find_keyword arr_line kd = some p →
      ∃ m, 0 < m ∧ m ≤ (lowerNonNumeric arr_line).length ∧
        p = (lowerNonNumeric arr_line).take m ∧ kd p = true ∧
        ∀ j, m < j → j ≤ (lowerNonNumeric arr_line).length →
          kd ((lowerNonNumeric arr_line).take j) = false) ∧
    find_keyword ["CONSTANT", "1.0"] (fun key => key == ["constant"])
      = some ["constant"] := by
  obtain ⟨h1, h2⟩ := findPrefix_spec kd (lowerNonNumeric arr_line)
    (lowerNonNumeric arr_line).length le_rfl
  exact ⟨h1, h2, rfl⟩

/-- C3: a quoted span is merged into a single field.  First conjunct: the
spec's concrete example `split_data_line('a "hello world" b')
= ['a', 'hello world', 'b']`.  Second conjunct, in general: a token `q :: w`
that starts with a quote but does not end in one, followed by absorbed
tokens `ms` (none ending in a quote) and a closing token `c` (ending in a
quote), produces the single field `w · ms · c-minus-trailing-quote` joined
by single spaces, the quotes stripped, and processing continues after the
closer.  Third conjunct: when no closing quote is ever found, the remainder
of the line is absorbed into that one field. -/
theorem c3_quoted_span_merge :
    split_data_line "a \"hello world\" b" false
      = .ok ["a", "hello world", "b"] ∧
    (∀ (q : Char) (w : List Char) (ms : List (List Char)) (c : List Char)
        (rest : List (List Char)) (xc : Char),
      q ∈ quoteChars → w.getLastD q ∉ quoteChars →
      (∀ m ∈ ms, ∃ x, m.getLast? = some x ∧ x ∉ quoteChars) →
      c.getLast? = some xc → xc ∈ quoteChars →
      fixTokens ((q :: w) :: ms ++ c :: rest)
        = (fixTokens rest).map (List.cons (mergeField w ms c.dropLast))) ∧
    (∀ (q : Char) (w : List Char) (ms : List (List Char)),
      q ∈ quoteChars → w.getLastD q ∉ quoteChars →
      (∀ m ∈ ms, ∃ x, m.getLast? = some x ∧ x ∉ quoteChars) →
      fixTokens ((q :: w) :: ms) = .ok [mergeAll w ms]) := by
  refine ⟨by rfl, ?_, ?_⟩
  · intro q w ms c rest xc hq hopen hms hc1 hc2
    show fixLoop ((q :: w) :: (ms ++ c :: rest)) Option.none = _
    rw [fixLoop_opens q w (ms ++ c :: rest) hq hopen,
      fixLoop_absorb_closes ms c rest w xc hms hc1 hc2]
    rfl
  · intro q w ms hq hopen hms
    show fixLoop ((q :: w) :: ms) Option.none = _
    rw [fixLoop_opens q w ms hq hopen, fixLoop_absorb_exhausts ms w hms]

/-- Witness for C3: the quoted-span merge applied to the concrete tokens of
`"x "hello big world" y"` (opening token `"hello`, absorbed token `big`,
closer `world"`, following token `y`). -/
theorem c3_quoted_span_merge_witness :
    fixTokens (['"', 'h', 'i'] :: [['b', 'g'], ['w', '"'], ['y']])
      = (fixTokens [['y']]).map
          (List.cons (mergeField ['h', 'i'] [['b', 'g']] ['w'])) :=
  c3_quoted_span_merge.2.1 '"' ['h', 'i'] [['b', 'g']] ['w', '"'] [['y']] '"'
    (by decide) (by decide)
    (by
      intro m hm
      rcases (by simpa using hm : m = ['b', 'g']) with rfl
      exact ⟨'g', rfl, by decide⟩)
    rfl (by decide)

/-- C4: with `external_file=True`, the trimmed line is additionally split on
each of comma, tab and single space; the split actually used is a candidate
delimiter's split only when it yields strictly more fields than the
whitespace split (and then no candidate yields more than the chosen one);
otherwise the whitespace split is kept.  The last conjunct is the spec's
concrete example: `split_data_line('1,2,,3', external_file=True)` selects
the comma delimiter and returns 4 fields, one of which is empty. -/
theorem c4_external_file_delimiters (line : String) :
    ((∀ d ∈ delimiters,
        (pySplitOn d (pyStrip line.toList)).length
          ≤ (pySplitWs (pyStrip line.toList)).length) →
      splitTokens line.toList true = pySplitWs (pyStrip line.toList)) ∧
    (¬ (∀ d ∈ delimiters,
        (pySplitOn d (pyStrip line.toList)).length
          ≤ (pySplitWs (pyStrip line.toList)).length) →
      ∃ d ∈ delimiters,
        splitTokens line.toList true = pySplitOn d (pyStrip line.toList) ∧
        (pySplitWs (pyStrip line.toList)).length
          < (pySplitOn d (pyStrip line.toList)).length ∧
        ∀ d' ∈ delimiters,
          (pySplitOn d' (pyStrip line.toList)).length
            ≤ (pySplitOn d (pyStrip line.toList)).length) ∧
    split_data_line "1,2,,3" true = .ok ["1", "2", "", "3"] := by
  obtain ⟨hnone, hsome⟩ := chooseDelim_spec (pyStrip line.toList)
    (pySplitWs (pyStrip line.toList)).length
  refine ⟨?_, ?_, by rfl⟩
  · intro hall
    show (match (chooseDelim (pyStrip line.toList)
        (pySplitWs (pyStrip line.toList)).length).2 with
      | Option.none => pySplitWs (pyStrip line.toList)
      | some d => pySplitOn d (pyStrip line.toList)) = _
    rw [hnone hall]
  · intro hnot
    obtain ⟨d, hd, heq, hgt, hmax⟩ := hsome hnot
    refine ⟨d, hd, ?_, hgt, hmax⟩
    show (match (chooseDelim (pyStrip line.toList)
        (pySplitWs (pyStrip line.toList)).length).2 with
      | Option.none => pySplitWs (pyStrip line.toList)
      | some d' => pySplitOn d' (pyStrip line.toList)) = _
    rw [heq]

/-- Witness for C4: on the line `"1,2,,3"` some delimiter (the comma) beats
the whitespace split, so the chosen split is a delimiter split with
strictly more fields than the whitespace split. -/
theorem c4_external_file_delimiters_witness :
    ∃ d ∈ delimiters,
      splitTokens "1,2,,3".toList true
          = pySplitOn d (pyStrip "1,2,,3".toList) ∧
      (pySplitWs (pyStrip "1,2,,3".toList)).length
        < (pySplitOn d (pyStrip "1,2,,3".toList)).length ∧
      ∀ d' ∈ delimiters,
        (pySplitOn d' (pyStrip "1,2,,3".toList)).length
          ≤ (pySplitOn d (pyStrip "1,2,,3".toList)).length :=
  (c4_external_file_delimiters "1,2,,3").2.1 (by decide)

/-- C8: for same-shape (equal length, non-empty) numeric arrays,
`array_comp` returns `True` iff every absolute elementwise difference is at
most the tolerance (equivalently: the maximum absolute difference is ≤ the
tolerance, including the boundary case of exact equality), returns `False`
iff some absolute elementwise difference strictly exceeds the tolerance,
and the configured default tolerance is 0.01. -/
theorem c8_array_comp (tol : ℚ) (a b : List ℚ)
    (hlen : a.length = b.length) (hne : a ≠ []) :
    (array_comp tol a b = .ok true ↔
      ∀ p ∈ List.zip a b, |p.1 - p.2| ≤ tol) ∧
    (array_comp tol a b = .ok false ↔
      ∃ p ∈ List.zip a b, tol < |p.1 - p.2|) ∧
    default_max_error = 1 / 100 := by
  rcases a with _ | ⟨x, as⟩
  · exact absurd rfl hne
  rcases b with _ | ⟨y, bs⟩
  · simp at hlen
  have harr : array_comp tol (x :: as) (y :: bs)
      = if tol < ((List.zipWith (fun a b => a - b) as bs).map
          (fun v => |v|)).foldl max |x - y|
        then .ok false else .ok true := rfl
  have hiff : ((List.zipWith (fun a b => a - b) as bs).map
        (fun v => |v|)).foldl max |x - y| ≤ tol ↔
      ∀ p ∈ List.zip (x :: as) (y :: bs), |p.1 - p.2| ≤ tol := by
    rw [foldl_max_le_iff tol
      ((List.zipWith (fun a b => a - b) as bs).map (fun v => |v|)) |x - y|]
    rw [absDiff_eq_map_zip as bs]
    constructor
    · rintro ⟨h1, h2⟩ p hp
      rcases List.mem_cons.mp (by simpa using hp) with rfl | hp'
      · exact h1
      · exact h2 _ (List.mem_map_of_mem _ hp')
    · intro hall
      refine ⟨hall (x, y) (by simp), ?_⟩
      intro z hz
      obtain ⟨p, hp, rfl⟩ := List.mem_map.mp hz
      exact hall p (by simp [hp])
  by_cases hm : tol < ((List.zipWith (fun a b => a - b) as bs).map
      (fun v => |v|)).foldl max |x - y|
  · have hf : array_comp tol (x :: as) (y :: bs) = .ok false := by
      rw [harr, if_pos hm]
    have hnall : ¬ ∀ p ∈ List.zip (x :: as) (y :: bs), |p.1 - p.2| ≤ tol :=
      fun hall => absurd (hiff.mpr hall) (not_le.mpr hm)
    have hex : ∃ p ∈ List.zip (x :: as) (y :: bs), tol < |p.1 - p.2| := by
      push_neg at hnall
      exact hnall
    refine ⟨?_, ?_, rfl⟩
    · rw [hf]
      exact ⟨fun h => absurd h (by simp), fun hall => absurd hall hnall⟩
    · rw [hf]
      exact ⟨fun _ => hex, fun _ => rfl⟩
  · have hm' := not_lt.mp hm
    have ht : array_comp tol (x :: as) (y :: bs) = .ok true := by
      rw [harr, if_neg hm]
    refine ⟨?_, ?_, rfl⟩
    · rw [ht]
      exact ⟨fun _ => hiff.mp hm', fun _ => rfl⟩
    · rw [ht]
      refine ⟨fun h => absurd h (by simp), ?_⟩
      rintro ⟨p, hp, hlt⟩
      exact absurd (hiff.mp hm' p hp) (not_le.mpr hlt)

/-- Witness for C8: the boundary case — a pair of arrays whose maximum
absolute difference exactly equals the default tolerance compares as
`True`. -/
theorem c8_array_comp_witness :
    array_comp (1 / 100) [1, 2] [1 + 1 / 100, 2] = .ok true :=
  (c8_array_comp (1 / 100) [1, 2] [1 + 1 / 100, 2] rfl
    (by simp)).1.mpr (by
      intro p hp
      rcases (by simpa using hp : p = ((1 : ℚ), 1 + 1 / 100) ∨ p = (2, 2))
          with rfl | rfl <;>
        norm_num [abs_le])

/-- C7 counterexample: a call with a `data_storage_type_list` of length 2
while the resolved layer count is 3 — but with `layered=False` — returns a
template normally instead of raising, contradicting the claim that *every*
mismatched call aborts with `MFDataException`.  The length check in the
source is guarded by `layered and dimension_list[0] > 1`. -/
theorem c7_mismatch_not_always_raising :
    ArrayTemplateGenerator_empty [3, 2] .floatT .array_steady false
        (some [.internal_array, .internal_array]) Option.none
      = .ok (.plain (.single (.arrayDict 1 1 (.emptyArr [3, 2])))) := by
  rfl

/-- C7 (amended): when `layered` is true and the resolved layer count
exceeds 1, a given `data_storage_type_list` whose length differs from the
layer count makes `empty` abort with `MFDataException` (after printing a
diagnostic message) and no template is returned; when `layered` is false,
no length check is performed and a (non-empty) mismatched list does not
raise — template construction completes. -/
theorem c7_storage_list_length_check (dimension_list : List Nat)
    (datum_type : NumType) (data_type : MFDataType)
    (l : List DataStorageType) (default_value : Option ℚ) :
    (1 < dimension_list.headD 0 → l.length ≠ dimension_list.headD 0 →
      ArrayTemplateGenerator_empty dimension_list datum_type data_type true
          (some l) default_value
        = .error (.mfDataException
            "data_storage_type_list specified with the wrong size")) ∧
    (∀ (dst0 : DataStorageType) (rest : List DataStorageType),
      ∃ r, ArrayTemplateGenerator_empty dimension_list datum_type data_type
          false (some (dst0 :: rest)) default_value = .ok r) := by
  constructor
  · intro h1 h2
    rw [List.headD_eq_head?] at h1 h2
    simp only [ArrayTemplateGenerator_empty, List.headD_eq_head?]
    simp [h1, h2]
  · intro dst0 rest
    refine ⟨wrapResult data_type (.single (_build_layer datum_type
      (if dst0 = .internal_array then .internal_array else dst0)
      default_value dimension_list true)), ?_⟩
    simp only [ArrayTemplateGenerator_empty]
    rw [if_neg (by simp)]

/-- Witness for C7 (amended): layer count 3 with a length-2 list and
`layered=True` raises the structure-definition exception. -/
theorem c7_storage_list_length_check_witness :
    ArrayTemplateGenerator_empty [3, 2] .floatT .array_steady true
        (some [.internal_array, .internal_array]) Option.none
      = .error (.mfDataException
          "data_storage_type_list specified with the wrong size") :=
  (c7_storage_list_length_check [3, 2] .floatT .array_steady
    [.internal_array, .internal_array] Option.none).1
    (by decide) (by decide)

/-- C2: for every rectangular shape (non-empty list of positive sizes) and
any surplus fuel `e`, iterating `ArrayIndexIter` yields exactly the
row-major coordinate enumeration `coords shape` and then stops: exactly
`∏ sizes` coordinates, no duplicates, each componentwise within bounds with
one component per axis, starting at the all-zero coordinate and ending at
the all-`(size-1)` coordinate; the yielded Python value is a single integer
when the rank is 1 and a rank-length tuple otherwise.  (Fuel-insensitivity
— the same output for every `e` — is the `StopIteration` after
exhaustion.) -/
theorem c2_array_index_iter (shape : List Nat) (hne : shape ≠ [])
    (hpos : ∀ n ∈ shape, 0 < n) (e : Nat) :
    aiiRun (aiiInit shape) (shape.prod + e) = coords shape ∧
    aiiRunPy (aiiInit shape) (shape.prod + e) = (coords shape).map pyYield ∧
    (coords shape).length = shape.prod ∧
    (coords shape).Nodup ∧
    (∀ c ∈ coords shape, List.Forall₂ (fun x n => x < n) c shape) ∧
    (∀ c ∈ coords shape, c.length = shape.length) ∧
    (coords shape).head? = some (List.replicate shape.length 0) ∧
    (coords shape).getLast? = some (shape.map (fun n => n - 1)) ∧
    (shape.length = 1 → ∀ y ∈ aiiRunPy (aiiInit shape) (shape.prod + e),
      ∃ k, y = PyIndex.single k) ∧
    (1 < shape.length → ∀ y ∈ aiiRunPy (aiiInit shape) (shape.prod + e),
      ∃ l, y = PyIndex.tuple l ∧ l.length = shape.length) := by
  have hP : 0 < shape.prod := List.prod_pos hpos
  have hposR : ∀ n ∈ shape.reverse, 0 < n :=
    fun n hn => hpos n (List.mem_reverse.mp hn)
  have horb := orbit_enumRev shape.reverse hposR
  rw [List.length_reverse] at horb
  have hmapL : (enumRev shape.reverse).map List.reverse = coords shape := by
    rw [← coords_map_reverse shape, List.map_map]
    simp [Function.comp_def]
  have hlenL : (enumRev shape.reverse).length = shape.prod := by
    have h1 := congrArg List.length hmapL
    rw [List.length_map, coords_length] at h1
    exact h1
  obtain ⟨t, hT⟩ := orbit_head horb
  have hs1run := aiiRun_of_orbit shape (List.replicate shape.length 0)
    (enumRev shape.reverse) horb (by simp) e
  rw [List.reverse_replicate] at hs1run
  have hfuel : shape.prod + e
      = ((enumRev shape.reverse).length - 1 + e) + 1 := by
    rw [hlenL]; omega
  have hrun : aiiRun (aiiInit shape) (shape.prod + e) = coords shape := by
    rw [hfuel, aiiRun_succ]
    rw [show aiiNext (aiiInit shape)
        = (some (List.replicate shape.length 0),
           ⟨shape, List.replicate shape.length 0, (shape.length : Int) - 1,
             false⟩) from rfl]
    dsimp only
    rw [hs1run, ← hmapL, hT]
    simp [List.reverse_replicate]
  have hrunPy : aiiRunPy (aiiInit shape) (shape.prod + e)
      = (coords shape).map pyYield := by
    rw [aiiRunPy, hrun]
  refine ⟨hrun, hrunPy, coords_length shape, coords_nodup shape,
    coords_bounds shape, coords_mem_length shape, coords_head shape hpos,
    coords_last shape hpos, ?_, ?_⟩
  · intro h1 y hy
    rw [hrunPy] at hy
    obtain ⟨c, hc, rfl⟩ := List.mem_map.mp hy
    have hcl := coords_mem_length shape c hc
    refine ⟨c.headD 0, ?_⟩
    rw [pyYield, if_neg (by omega)]
  · intro h1 y hy
    rw [hrunPy] at hy
    obtain ⟨c, hc, rfl⟩ := List.mem_map.mp hy
    have hcl := coords_mem_length shape c hc
    refine ⟨c, ?_, by omega⟩
    rw [pyYield, if_pos (by omega)]

/-- Witness for C2: the 2×3 shape — the iterator yields exactly the
row-major enumeration. -/
theorem c2_array_index_iter_witness :
    aiiRun (aiiInit [2, 3]) ([2, 3].prod + 0) = coords [2, 3] :=
  (c2_array_index_iter [2, 3] (by decide) (by decide) 0).1

/-- Witness for C5: the longest-prefix characterization applied to the
concrete example. -/
theorem c5_find_keyword_witness :
    ∃ m, 0 < m ∧ m ≤ (lowerNonNumeric ["CONSTANT", "1.0"]).length ∧
      ["constant"] = (lowerNonNumeric ["CONSTANT", "1.0"]).take m ∧
      (fun key => key == ["constant"]) ["constant"] = true ∧
      ∀ j, m < j → j ≤ (lowerNonNumeric ["CONSTANT", "1.0"]).length →
        (fun key => key == ["constant"])
          ((lowerNonNumeric ["CONSTANT", "1.0"]).take j) = false :=
  (c5_find_keyword ["CONSTANT", "1.0"]
    (fun key => key == ["constant"])).2.1 ["constant"] (by rfl)

end MfDataUtil
